import Mathlib

/-!
Verification of the declarative-CLI-from-docstring engine of `geet.py`.

The development shallowly embeds the registration pipeline
(`_add_subcommand`, `subcommand`, `main`) together with the parts of the
Python standard library the pipeline delegates to (`str` methods,
`textwrap.dedent`, the one `re.sub` wrap-collapsing pattern, and the
`argparse` behaviors the compiled rules exercise).  Strings are modelled
as `List Char` with Python splitting and stripping semantics, so every
definition is executable and concrete runs reduce inside the kernel.
-/

namespace Geet

/-- Python strings, modelled as lists of characters. -/
abbrev PStr := List Char

/-- Python `str` whitespace test, restricted to ASCII whitespace (the only
whitespace occurring in this program). -/
def isPyWs (c : Char) : Bool :=
  c == ' ' || c == '\t' || c == '\n' || c == '\r' ||
    c == Char.ofNat 11 || c == Char.ofNat 12

/-- If `pre` is a leading run of `s`, return the remainder of `s` after it. -/
def dropLit : PStr → PStr → Option PStr
  | [], s => some s
  | _ :: _, [] => Option.none
  | p :: ps, c :: cs => if p == c then dropLit ps cs else Option.none

/-- Python `s.startswith(pre)`. -/
def pyStartsWith (s pre : PStr) : Bool := (dropLit pre s).isSome

/-- Python `s.endswith(suf)`. -/
def pyEndsWith (s suf : PStr) : Bool := pyStartsWith s.reverse suf.reverse

/-- Worker for `pySplit`; the fuel is an upper bound on the input length and
makes the recursion structural. -/
def pySplitGo (sep : PStr) : Nat → PStr → PStr → List PStr
  | _, [], acc => [acc.reverse]
  | 0, s, acc => [acc.reverse ++ s]
  | n + 1, c :: cs, acc =>
    match dropLit sep (c :: cs) with
    | some rest => acc.reverse :: pySplitGo sep n rest []
    | Option.none => pySplitGo sep n cs (c :: acc)

/-- Python `s.split(sep)` for a non-empty separator: splits at every
occurrence, keeping empty pieces. -/
def pySplit (s sep : PStr) : List PStr := pySplitGo sep s.length s []

/-- Python `s.strip()`: remove leading and trailing whitespace. -/
def pyStrip (s : PStr) : PStr :=
  ((s.dropWhile isPyWs).reverse.dropWhile isPyWs).reverse

/-- Python `sep.join(xs)`. -/
def pyJoin (sep : PStr) : List PStr → PStr
  | [] => []
  | [x] => x
  | x :: y :: xs => x ++ sep ++ pyJoin sep (y :: xs)

/-- A line consisting solely of spaces and tabs (and at least one of them). -/
def wsOnly (s : PStr) : Bool :=
  !s.isEmpty && s.all (fun c => c == ' ' || c == '\t')

/-- The leading space/tab margin of a line. -/
def leadWs (s : PStr) : PStr := s.takeWhile (fun c => c == ' ' || c == '\t')

/-- Longest common leading run of two character lists. -/
def commonLead : PStr → PStr → PStr
  | a :: as, b :: bs => if a == b then a :: commonLead as bs else []
  | _, _ => []

/-- Models `textwrap.dedent`: lines consisting solely of whitespace are
normalized to empty, then the longest common leading space/tab margin of the
remaining lines is removed from every line. -/
def dedent (s : PStr) : PStr :=
  let lines := (pySplit s ['\n']).map (fun l => if wsOnly l then [] else l)
  let margins := (lines.filter (fun l => !l.isEmpty)).map leadWs
  let margin := match margins with
    | [] => ([] : PStr)
    | m :: ms => ms.foldl commonLead m
  let out := lines.map (fun l =>
    match dropLit margin l with
    | some rest => rest
    | Option.none => l)
  pyJoin ['\n'] out

/-- Match condition of the soft-wrap pattern `\s*\n\s{4,}` inside a maximal
whitespace run: some newline in the run is followed by at least 4 further
whitespace characters within the run. -/
def runHasWrap : PStr → Bool
  | [] => false
  | c :: rest => (c == '\n' && decide (rest.length ≥ 4)) || runHasWrap rest

/-- Emit a whitespace run: a run matching the soft-wrap pattern is replaced
by a single space. -/
def emitRun (run : PStr) : PStr :=
  if runHasWrap run then [' '] else run

/-- Worker for `collapseSoftWraps`; the second argument accumulates the
current whitespace run in reverse. -/
def collapseGo : PStr → PStr → PStr
  | [], run => emitRun run.reverse
  | c :: cs, run =>
    if isPyWs c then collapseGo cs (c :: run)
    else emitRun run.reverse ++ c :: collapseGo cs []

/-- Models `re.sub(r"\s*\n\s{4,}", " ", s)`: every maximal whitespace run
containing a newline followed by at least 4 whitespace characters (within
the run) is replaced by a single space; other runs are kept. -/
def collapseSoftWraps (s : PStr) : PStr := collapseGo s []

/-- ASCII decimal digit value. -/
def digitVal (c : Char) : Option Nat :=
  if '0' ≤ c && c ≤ '9' then some (c.toNat - '0'.toNat) else Option.none

/-- Accumulate a decimal number; fails on a non-digit. -/
def natOfDigitsGo : PStr → Nat → Option Nat
  | [], acc => some acc
  | c :: cs, acc =>
    match digitVal c with
    | some d => natOfDigitsGo cs (acc * 10 + d)
    | Option.none => Option.none

/-- Models Python `int()` on a string: optional surrounding whitespace, an
optional sign, then one or more ASCII digits (digit grouping with
underscores is not modelled; it does not occur here). -/
def pyIntOfStr (s : PStr) : Option Int :=
  match pyStrip s with
  | '-' :: ds =>
    if ds.isEmpty then Option.none
    else (natOfDigitsGo ds 0).map (fun n => -(n : Int))
  | '+' :: ds =>
    if ds.isEmpty then Option.none
    else (natOfDigitsGo ds 0).map (fun n => (n : Int))
  | ds =>
    if ds.isEmpty then Option.none
    else (natOfDigitsGo ds 0).map (fun n => (n : Int))

/-- Python values occurring in parsed-argument namespaces. -/
inductive PyVal where
  | none : PyVal
  | str : PStr → PyVal
  | int : Int → PyVal
  | bool : Bool → PyVal
  | list : List PyVal → PyVal

/-- The argparse `action=` keyword values the program uses. -/
inductive PyAction where
  | store
  | storeTrue
  | append
deriving DecidableEq

/-- The value the program passes as the argparse `type=` keyword: the
builtin callable `str`, the builtin callable `int`, or a plain string
literal (the source writes `"type": "str"`, quoting `str`). -/
inductive PyTypeArg where
  | callableStr
  | callableInt
  | strLit : PStr → PyTypeArg
deriving DecidableEq

/-- One compiled argument rule: the positional name or dash-prefixed flag
names together with the keyword arguments `_add_subcommand` passes to
`parser.add_argument`. -/
structure ArgRule where
  names : List PStr
  action : PyAction
  typeArg : Option PyTypeArg
  dflt : Option PyVal
  nargsPlus : Bool
  help : PStr

/-- A compiled subcommand: name, help texts, aliases, compiled argument
rules and the stored handler reference (`set_defaults(func=func)`). -/
structure CommandSpec where
  name : PStr
  shorthelp : PStr
  longhelp : PStr
  aliases : List PStr
  rules : List ArgRule
  handler : PStr

instance : Inhabited PyVal := ⟨PyVal.none⟩

instance : Inhabited ArgRule :=
  ⟨{ names := [], action := .store, typeArg := Option.none, dflt := Option.none,
     nargsPlus := false, help := [] }⟩

instance : Inhabited CommandSpec :=
  ⟨{ name := [], shorthelp := [], longhelp := [], aliases := [], rules := [],
     handler := [] }⟩

/-- A Python handler function: its module-level identifier and docstring. -/
structure Handler where
  name : PStr
  doc : PStr

/-- The subparser registry: the `_name_parser_map` of the subparsers action,
mapping each command name and alias to its compiled command. -/
abbrev Registry := List (PStr × CommandSpec)

/-- Dictionary lookup in the registry. -/
def regFind : Registry → PStr → Option CommandSpec
  | [], _ => Option.none
  | (k2, v) :: rest, k => if k2 = k then some v else regFind rest k

/-- Dictionary insert-or-overwrite, as Python dict assignment. -/
def regSet : Registry → PStr → CommandSpec → Registry
  | [], k, v => [(k, v)]
  | (k2, v2) :: rest, k, v =>
    if k2 = k then (k, v) :: rest else (k2, v2) :: regSet rest k v

/-- Insert a command under every given key. -/
def regSetAll (reg : Registry) (ks : List PStr) (spec : CommandSpec) : Registry :=
  ks.foldl (fun r k => regSet r k spec) reg

/-- The keys of a registry. -/
def regKeys (reg : Registry) : List PStr := reg.map Prod.fst

/-- Models the conflict check of argparse `add_parser` (current CPython):
before inserting, every key already present raises ArgumentError. -/
def checkKeys (reg : Registry) : List PStr → Except PStr Unit
  | [] => .ok ()
  | k :: ks =>
    if (regFind reg k).isSome then
      .error ("ArgumentError: conflicting subparser: ".toList ++ k)
    else checkKeys reg ks

/-- Remove the first element satisfying `p` (Python `del xs[index]` after
`index(True)` on the matching positions). -/
def removeFirst (p : PStr → Bool) : List PStr → List PStr
  | [] => []
  | x :: xs => if p x then xs else x :: removeFirst p xs

/-- The parsed front matter of a docstring. -/
structure DocFront where
  name : PStr
  shorthelp : PStr
  argsBlocks : List PStr
  aliases : List PStr
  longhelp : PStr

/-- The paragraph list of a docstring:
`[textwrap.dedent(s) for s in docstr.strip().split("\n\n")]`. -/
def docParagraphs (doc : PStr) : List PStr :=
  (pySplit (pyStrip doc) ['\n', '\n']).map dedent

/-- Extraction of the Args blocks: if some paragraph starts with
`"Args:\n"`, collect `x[5:]` of every such paragraph and delete the first
one from the paragraph list; otherwise the list is unchanged. -/
def takeArgsBlocks (ps : List PStr) : List PStr × List PStr :=
  if ps.any (fun x => pyStartsWith x ("Args:\n".toList)) then
    ((ps.filter (fun x => pyStartsWith x ("Args:\n".toList))).map (List.drop 5),
     removeFirst (fun x => pyStartsWith x ("Args:\n".toList)) ps)
  else ([], ps)

/-- The alias list computed from an Aliases paragraph:
`[x.strip() for x in p[9:].split(",")]`.  Note the source drops 9
characters although the header `"Aliases:"` has only 8. -/
def parseAliasPara (p : PStr) : List PStr :=
  (pySplit (p.drop 9) [',']).map pyStrip

/-- Extraction of the alias list: the first paragraph starting with
`"Aliases:"` is parsed by `parseAliasPara` and deleted; absence means no
aliases. -/
def takeAliases (ps : List PStr) : List PStr × List PStr :=
  match ps.find? (fun x => pyStartsWith x ("Aliases:".toList)) with
  | some p =>
    (parseAliasPara p, removeFirst (fun x => pyStartsWith x ("Aliases:".toList)) ps)
  | Option.none => ([], ps)

/-- The docstring front half of `_add_subcommand`: split paragraphs, unpack
`paragraphs[0].split(": ")` into name and short help (a ValueError unless
exactly two pieces), extract the Args blocks and the aliases, and join the
rest into the long help. -/
def docFront (doc : PStr) : Except PStr DocFront :=
  match docParagraphs doc with
  | [] => .error ("IndexError: empty paragraph list".toList)
  | p0 :: rest =>
    match pySplit p0 (": ".toList) with
    | [name, shorthelp] =>
      let ar := takeArgsBlocks rest
      let al := takeAliases ar.2
      .ok { name := name, shorthelp := shorthelp, argsBlocks := ar.1,
            aliases := al.1, longhelp := pyJoin ['\n', '\n'] al.2 }
    | _ => .error ("ValueError: cannot unpack name and help from the first paragraph".toList)

/-- Compilation of a single stripped argument line into the keyword
arguments `_add_subcommand` builds for `parser.add_argument`.  The line is
split on `": "` and must unpack into exactly a spec and a help text; a
dash-prefixed spec with `=` becomes a store (or append, on a `...` suffix)
rule whose type keyword is the builtin `int` when the type text is exactly
`"int"` and otherwise the string literal `"str"` exactly as the source
writes it; a dash-prefixed spec without `=` becomes a store_true toggle; a
plain spec becomes a required positional, repeated when it ends in `...`. -/
def compileArgLine (x : PStr) : Except PStr ArgRule :=
  match pySplit x (": ".toList) with
  | [arg, arghelp] =>
    if pyStartsWith arg ['-'] then
      if (pySplit arg ['=']).length == 1 then
        .ok { names := pySplit arg ['|'], action := .storeTrue, typeArg := Option.none,
              dflt := Option.none, nargsPlus := false, help := arghelp }
      else
        match pySplit arg ['='] with
        | [nm, atype] =>
          let rep := pyEndsWith atype ("...".toList)
          let atype2 := if rep then atype.take (atype.length - 3) else atype
          let act := if rep then PyAction.append else PyAction.store
          let dflt := if rep then some (PyVal.list []) else Option.none
          let ty := if atype2 = "int".toList then PyTypeArg.callableInt
                    else PyTypeArg.strLit ("str".toList)
          .ok { names := pySplit nm ['|'], action := act, typeArg := some ty,
                dflt := dflt, nargsPlus := false, help := arghelp }
        | _ => .error ("ValueError: cannot unpack flag spec on the equals sign".toList)
    else
      if pyEndsWith arg ("...".toList) then
        .ok { names := pySplit (arg.take (arg.length - 3)) ['|'], action := .append,
              typeArg := Option.none, dflt := Option.none, nargsPlus := true,
              help := arghelp }
      else
        .ok { names := pySplit arg ['|'], action := .store, typeArg := some .callableStr,
              dflt := Option.none, nargsPlus := false, help := arghelp }
  | _ => .error ("ValueError: cannot unpack arg line: ".toList ++ x)

/-- Models the registration-time check of argparse `add_argument` that the
`type=` keyword is callable: the string literal `"str"` the source passes
for non-int value flags is rejected with a ValueError. -/
def addArgumentCheck (r : ArgRule) : Except PStr ArgRule :=
  match r.typeArg with
  | some (.strLit s) => .error (s ++ " is not callable".toList)
  | _ => .ok r

/-- One argument line processed end to end: unpack and classify, then hand
the keyword arguments to `add_argument`. -/
def compileStep (x : PStr) : Except PStr ArgRule :=
  match compileArgLine x with
  | .ok r => addArgumentCheck r
  | .error e => .error e

/-- The `for arg, arghelp in ...: parser.add_argument(...)` loop over the
non-blank stripped lines. -/
def compileArgLines : List PStr → Except PStr (List ArgRule)
  | [] => .ok []
  | x :: xs =>
    match compileStep x with
    | .error e => .error e
    | .ok r =>
      match compileArgLines xs with
      | .error e => .error e
      | .ok rs => .ok (r :: rs)

/-- Line preparation of the Args body: collapse soft wraps with the
`re.sub` pattern, split on newlines, strip each line, drop blank lines. -/
def prepArgLines (block : PStr) : List PStr :=
  ((pySplit (collapseSoftWraps block) ['\n']).map pyStrip).filter (fun l => !l.isEmpty)

/-- The `if args_list:` guard of `_add_subcommand`: only the first Args
block is compiled; no block means no rules. -/
def compileArgBlock : List PStr → Except PStr (List ArgRule)
  | [] => .ok []
  | b :: _ => compileArgLines (prepArgLines b)

/-- The compiled command a handler and its parsed docstring produce;
`set_defaults(func=func)` stores the handler reference. -/
def mkSpec (h : Handler) (f : DocFront) (rules : List ArgRule) : CommandSpec :=
  { name := f.name, shorthelp := f.shorthelp, longhelp := f.longhelp,
    aliases := f.aliases, rules := rules, handler := h.name }

/-- `_add_subcommand(parent, func)`: parse the docstring front matter,
register the parser under the name and every alias (with the add_parser
conflict check, and `set_defaults(func=func)` storing the handler), then
compile the argument rules from the Args block. -/
def addSubcommand (reg : Registry) (h : Handler) : Except PStr Registry :=
  match docFront h.doc with
  | .error e => .error e
  | .ok f =>
    match checkKeys reg (f.name :: f.aliases) with
    | .error e => .error e
    | .ok _ =>
      match compileArgBlock f.argsBlocks with
      | .error e => .error e
      | .ok rules => .ok (regSetAll reg (f.name :: f.aliases) (mkSpec h f rules))

/-- Registration of a list of handlers, as the decorators run at import
time, each feeding the registry state to the next. -/
def registerAll (reg : Registry) : List Handler → Except PStr Registry
  | [] => .ok reg
  | h :: hs =>
    match addSubcommand reg h with
    | .error e => .error e
    | .ok reg2 => registerAll reg2 hs

/-- Models the decorator returned by `subcommand()`: the inner function
calls `_add_subcommand` for its side effect and has no return statement, so
Python rebinds the decorated module-level name to its return value None.
The result pairs the new registry state with the value bound to the
decorated name. -/
def subcommandDecorate (reg : Registry) (h : Handler) :
    Except PStr Registry × Option Handler :=
  (addSubcommand reg h, Option.none)

/-- The keys a docstring declares: the canonical name followed by the
aliases, when the front matter parses. -/
def docKeys (h : Handler) : List PStr :=
  match docFront h.doc with
  | .ok f => f.name :: f.aliases
  | .error _ => []

/-- A parsed-argument namespace: the attribute dictionary of the argparse
Namespace object. -/
abbrev ArgNs := List (PStr × PyVal)

/-- Dictionary lookup in a namespace. -/
def nsFind : ArgNs → PStr → Option PyVal
  | [], _ => Option.none
  | (k2, v) :: rest, k => if k2 = k then some v else nsFind rest k

/-- Dictionary insert-or-overwrite in a namespace (`setattr`). -/
def nsSet : ArgNs → PStr → PyVal → ArgNs
  | [], k, v => [(k, v)]
  | (k2, v2) :: rest, k, v =>
    if k2 = k then (k, v) :: rest else (k2, v2) :: nsSet rest k v

/-- Models the argparse append action: the current attribute value (a fresh
empty list when it is None or unset) is copied and the new value appended. -/
def nsAppend (ns : ArgNs) (k : PStr) (v : PyVal) : ArgNs :=
  match nsFind ns k with
  | some (PyVal.list l) => nsSet ns k (.list (l ++ [v]))
  | _ => nsSet ns k (.list [v])

/-- Replace dashes by underscores (argparse dest computation). -/
def dashToUnderscore (s : PStr) : PStr :=
  s.map (fun c => if c = '-' then '_' else c)

/-- Models the argparse dest of a rule: the first long option string
without its leading dashes (else the first short option without its dash),
dashes replaced by underscores; a positional uses its name. -/
def destOf (names : List PStr) : PStr :=
  match names.find? (fun n => pyStartsWith n ("--".toList)) with
  | some n => dashToUnderscore (n.drop 2)
  | Option.none =>
    match names with
    | [] => []
    | n :: _ =>
      if pyStartsWith n ['-'] then dashToUnderscore (n.drop 1)
      else dashToUnderscore n

/-- Is a rule a flag rule (its first name is dash-prefixed)? -/
def ArgRule.isFlag (r : ArgRule) : Bool :=
  match r.names with
  | n :: _ => pyStartsWith n ['-']
  | [] => false

/-- The initial attribute value of a rule: False for store_true, the
declared default of an append flag, otherwise None. -/
def ArgRule.defaultVal (r : ArgRule) : PyVal :=
  match r.action with
  | .storeTrue => .bool false
  | _ =>
    match r.dflt with
    | some v => v
    | Option.none => .none

/-- The namespace argparse seeds from the rule defaults before parsing. -/
def initNs (rules : List ArgRule) : ArgNs :=
  rules.map (fun r => (destOf r.names, r.defaultVal))

/-- Value conversion through the `type=` keyword: the default (absent) type
is the identity on the token, `str` keeps it, `int` parses it as a Python
int and fails with a usage error otherwise. -/
def convertVal (ty : Option PyTypeArg) (v : PStr) : Except PStr PyVal :=
  match ty with
  | Option.none => .ok (.str v)
  | some .callableStr => .ok (.str v)
  | some .callableInt =>
    match pyIntOfStr v with
    | some n => .ok (.int n)
    | Option.none => .error ("invalid int value: ".toList ++ v)
  | some (.strLit s) => .error (s ++ " is not callable".toList)

/-- A token that looks like an option: dash-prefixed and longer than the
bare dash. -/
def isOptionLike (t : PStr) : Bool := pyStartsWith t ['-'] && t.length > 1

/-- Split a `--option=value` token at its first equals sign. -/
def splitFirstEq (t : PStr) : Option (PStr × PStr) :=
  match pySplit t ['='] with
  | [_] => Option.none
  | o :: rest => some (o, pyJoin ['='] rest)
  | [] => Option.none

/-- Find the flag rule owning an option string (exact match against the
declared names). -/
def findFlagRule (rules : List ArgRule) (o : PStr) : Option ArgRule :=
  rules.find? (fun r => r.isFlag && r.names.any (fun n => n = o))

/-- Models the argparse option-consumption loop for the rule shapes this
program compiles: exact option-string matching (prefix abbreviation is not
modelled), inline `--option=value` values, and the store_true, store and
append actions, each store or append consuming one value token.  Tokens not
looking like options are collected, in order, for the positional phase. -/
def parseOpts (rules : List ArgRule) :
    List PStr → ArgNs → List PStr → Except PStr (ArgNs × List PStr)
  | [], ns, pos => .ok (ns, pos.reverse)
  | t :: ts, ns, pos =>
    if isOptionLike t then
      match (if pyStartsWith t ("--".toList) then splitFirstEq t else Option.none) with
      | some ov =>
        match findFlagRule rules ov.1 with
        | Option.none => .error ("unrecognized arguments: ".toList ++ t)
        | some r =>
          match r.action with
          | .storeTrue => .error ("ignored explicit argument: ".toList ++ ov.2)
          | .store =>
            match convertVal r.typeArg ov.2 with
            | .error e => .error e
            | .ok pv => parseOpts rules ts (nsSet ns (destOf r.names) pv) pos
          | .append =>
            match convertVal r.typeArg ov.2 with
            | .error e => .error e
            | .ok pv => parseOpts rules ts (nsAppend ns (destOf r.names) pv) pos
      | Option.none =>
        match findFlagRule rules t with
        | Option.none => .error ("unrecognized arguments: ".toList ++ t)
        | some r =>
          match r.action with
          | .storeTrue => parseOpts rules ts (nsSet ns (destOf r.names) (.bool true)) pos
          | .store =>
            match ts with
            | [] => .error ("argument ".toList ++ t ++ ": expected one argument".toList)
            | v :: ts2 =>
              if isOptionLike v then
                .error ("argument ".toList ++ t ++ ": expected one argument".toList)
              else
                match convertVal r.typeArg v with
                | .error e => .error e
                | .ok pv => parseOpts rules ts2 (nsSet ns (destOf r.names) pv) pos
          | .append =>
            match ts with
            | [] => .error ("argument ".toList ++ t ++ ": expected one argument".toList)
            | v :: ts2 =>
              if isOptionLike v then
                .error ("argument ".toList ++ t ++ ": expected one argument".toList)
              else
                match convertVal r.typeArg v with
                | .error e => .error e
                | .ok pv => parseOpts rules ts2 (nsAppend ns (destOf r.names) pv) pos
    else
      parseOpts rules ts ns (t :: pos)

/-- Convert every collected token of a repeated positional. -/
def convertAll (ty : Option PyTypeArg) : List PStr → Except PStr (List PyVal)
  | [] => .ok []
  | v :: vs =>
    match convertVal ty v with
    | .error e => .error e
    | .ok pv =>
      match convertAll ty vs with
      | .error e => .error e
      | .ok pvs => .ok (pv :: pvs)

/-- Models argparse positional matching for the rule shapes this program
compiles: each plain positional consumes one token and stores it; a
`nargs="+"` positional consumes greedily while leaving one token for every
later positional and, through its append action, appends the collected list
as a single element; leftover tokens and missing required positionals are
usage errors. -/
def matchPos : List ArgRule → List PStr → ArgNs → Except PStr ArgNs
  | [], [], ns => .ok ns
  | [], t :: _, _ => .error ("unrecognized arguments: ".toList ++ t)
  | r :: rest, toks, ns =>
    if r.nargsPlus then
      if toks.length < 1 + rest.length then
        .error ("the following arguments are required: ".toList ++ destOf r.names)
      else
        let n := toks.length - rest.length
        match convertAll r.typeArg (toks.take n) with
        | .error e => .error e
        | .ok vals => matchPos rest (toks.drop n) (nsAppend ns (destOf r.names) (.list vals))
    else
      match toks with
      | [] => .error ("the following arguments are required: ".toList ++ destOf r.names)
      | t :: ts =>
        match convertVal r.typeArg t with
        | .error e => .error e
        | .ok pv => matchPos rest ts (nsSet ns (destOf r.names) pv)

/-- Parse a command line against the compiled rules of one command: seed
the defaults, consume the options, then match the positionals. -/
def parseCmdArgs (rules : List ArgRule) (ts : List PStr) : Except PStr ArgNs :=
  match parseOpts rules ts (initNs rules) [] with
  | .error e => .error e
  | .ok nsp => matchPos (rules.filter (fun r => !r.isFlag)) nsp.2 nsp.1

/-- The observable outcome of one program invocation. -/
inductive MainOutcome where
  | usageError : PStr → MainOutcome
  | helpPrinted : MainOutcome
  | internalError : PStr → MainOutcome
  | handlerCalled : PStr → ArgNs → MainOutcome

/-- The AttributeError message `main` dies with when no subcommand was
given: the namespace then never received the `func` default. -/
def attrErrMsg : PStr :=
  "AttributeError: Namespace object has no attribute func".toList

/-- Models `main()`: `cli.parse_args()` followed by the `args.func`
dispatch.  With no tokens the top-level parse succeeds but the namespace
has no `func` attribute, so `if not args.func` raises AttributeError before
`cli.print_help()` is reached.  An unknown command is an argparse usage
error naming the token; a known command parses its remaining tokens against
its rules and on success calls the stored handler (the help flags of
argparse are not modelled). -/
def mainModel (reg : Registry) : List PStr → MainOutcome
  | [] => .internalError attrErrMsg
  | t :: ts =>
    if isOptionLike t then .usageError ("unrecognized arguments: ".toList ++ t)
    else
      match regFind reg t with
      | Option.none => .usageError ("invalid choice: ".toList ++ t)
      | some spec =>
        match parseCmdArgs spec.rules ts with
        | .error e => .usageError e
        | .ok ns => .handlerCalled spec.handler ns

/-! The concrete program data of `geet.py` follows. -/

/-- The docstring of the module-level `testing` handler, verbatim. -/
def testingDoc : PStr :=
  ("testing: testing the cli api\n\n    Aliases: t, test\n\n    Args:\n       branch: branch to integrate\n       files...: One or more files.\n       -k|--kill: kill\n    ").toList

/-- The docstring of the module-level `foobar` handler, verbatim. -/
def foobarDoc : PStr :=
  ("foobar: foo the bars\n\n    foo foo bar bar\n    ").toList

/-- The `testing` handler. -/
def testingHandler : Handler := { name := "testing".toList, doc := testingDoc }

/-- The `foobar` handler. -/
def foobarHandler : Handler := { name := "foobar".toList, doc := foobarDoc }

/-- The registry the module builds at import time by decorating `testing`
and `foobar`. -/
def geetRegistry : Registry :=
  match registerAll [] [testingHandler, foobarHandler] with
  | .ok r => r
  | .error _ => []

/-- The argument line of the repeated positional scenario. -/
def filesLine : PStr := "files...: One or more files.".toList

/-- The rule `filesLine` compiles to: a required repeated positional whose
append action will nest the collected token list. -/
def filesRule : ArgRule :=
  { names := ["files".toList], action := .append, typeArg := Option.none,
    dflt := Option.none, nargsPlus := true, help := "One or more files.".toList }

/-- The argument line of the boolean flag scenario. -/
def killLine : PStr := "-k|--kill: kill".toList

/-- The rule `killLine` compiles to: a store_true toggle reachable as `-k`
or `--kill`. -/
def killRule : ArgRule :=
  { names := ["-k".toList, "--kill".toList], action := .storeTrue,
    typeArg := Option.none, dflt := Option.none, nargsPlus := false,
    help := "kill".toList }

/-- The argument line of the string flag scenario. -/
def commentLine : PStr := "-c|--comment=string: text".toList

/-- A well-formed docstring declaring the aliases a, b and c. -/
def zapDoc : PStr := "zap: zaps the thing\n\nAliases: a, b, c".toList

/-- The handler carrying `zapDoc`. -/
def zapHandler : Handler := { name := "zap".toList, doc := zapDoc }

/-- The registry obtained by registering `zapHandler` alone. -/
def zapRegistry : Registry :=
  match addSubcommand [] zapHandler with
  | .ok r => r
  | .error _ => []

/-- A docstring declaring the alias x. -/
def oneDoc : PStr := "one: the first command\n\nAliases: x".toList

/-- A second docstring declaring the same alias x. -/
def twoDoc : PStr := "two: the second command\n\nAliases: x".toList

/-- The handler carrying `oneDoc`. -/
def oneHandler : Handler := { name := "one".toList, doc := oneDoc }

/-- The handler carrying `twoDoc`. -/
def twoHandler : Handler := { name := "two".toList, doc := twoDoc }

/-- The registry obtained by registering `oneHandler` alone. -/
def oneRegistry : Registry :=
  match addSubcommand [] oneHandler with
  | .ok r => r
  | .error _ => []

/-- The registry obtained by registering `testingHandler` alone. -/
def testingOnlyRegistry : Registry :=
  match addSubcommand [] testingHandler with
  | .ok r => r
  | .error _ => []

/-! Helper lemmas about the registry, the namespace and the compilers. -/

theorem nsFind_nsSet_self (ns : ArgNs) (k : PStr) (v : PyVal) :
    nsFind (nsSet ns k v) k = some v := by
  induction ns with
  | nil => simp [nsSet, nsFind]
  | cons p rest ih =>
    obtain ⟨k2, v2⟩ := p
    by_cases h : k2 = k
    · simp [nsSet, nsFind, h]
    · simp [nsSet, nsFind, h, ih]

theorem regFind_regSet_self (reg : Registry) (k : PStr) (v : CommandSpec) :
    regFind (regSet reg k v) k = some v := by
  induction reg with
  | nil => simp [regSet, regFind]
  | cons p rest ih =>
    obtain ⟨k2, v2⟩ := p
    by_cases h : k2 = k
    · simp [regSet, regFind, h]
    · simp [regSet, regFind, h, ih]

theorem regFind_regSet_ne (reg : Registry) (k k2 : PStr) (v : CommandSpec)
    (hne : k ≠ k2) : regFind (regSet reg k v) k2 = regFind reg k2 := by
  have hne2 : ¬ (k2 = k) := fun h => hne h.symm
  induction reg with
  | nil => simp [regSet, regFind, hne]
  | cons p rest ih =>
    obtain ⟨k0, v0⟩ := p
    by_cases h0 : k0 = k
    · subst h0
      simp [regSet, regFind, hne]
    · by_cases h2 : k0 = k2
      · subst h2
        simp [regSet, regFind, h0]
      · simp [regSet, regFind, h0, h2, ih]

theorem regFind_regSetAll_of_mem (ks : List PStr) (reg : Registry)
    (spec : CommandSpec) (k : PStr)
    (h : k ∈ ks ∨ regFind reg k = some spec) :
    regFind (regSetAll reg ks spec) k = some spec := by
  induction ks generalizing reg with
  | nil =>
    rcases h with h | h
    · exact absurd h (List.not_mem_nil k)
    · simpa [regSetAll] using h
  | cons k0 ks ih =>
    have step : regSetAll reg (k0 :: ks) spec = regSetAll (regSet reg k0 spec) ks spec := rfl
    rw [step]
    rcases h with h | h
    · rcases List.mem_cons.mp h with h | h
      · subst h
        exact ih (regSet reg k spec) (Or.inr (regFind_regSet_self reg k spec))
      · exact ih (regSet reg k0 spec) (Or.inl h)
    · by_cases hk : k0 = k
      · subst hk
        exact ih (regSet reg k0 spec) (Or.inr (regFind_regSet_self reg k0 spec))
      · refine ih (regSet reg k0 spec) (Or.inr ?_)
        rw [regFind_regSet_ne reg k0 k spec hk]
        exact h

theorem checkKeys_error_of_mem (ks : List PStr) (reg : Registry) (k : PStr)
    (hmem : k ∈ ks) (hfound : (regFind reg k).isSome) :
    ∃ e, checkKeys reg ks = .error e := by
  induction ks with
  | nil => exact absurd hmem (List.not_mem_nil k)
  | cons k0 ks ih =>
    by_cases h0 : (regFind reg k0).isSome
    · refine ⟨"ArgumentError: conflicting subparser: ".toList ++ k0, ?_⟩
      simp [checkKeys, h0]
    · rcases List.mem_cons.mp hmem with h | h
      · subst h
        exact absurd hfound h0
      · obtain ⟨e, he⟩ := ih h
        refine ⟨e, ?_⟩
        simp [checkKeys, h0, he]

theorem regKeys_cons (k : PStr) (v : CommandSpec) (rest : Registry) :
    regKeys ((k, v) :: rest) = k :: regKeys rest := rfl

theorem mem_regKeys_regSet (reg : Registry) (k x : PStr) (v : CommandSpec)
    (h : x ∈ regKeys (regSet reg k v)) : x = k ∨ x ∈ regKeys reg := by
  induction reg with
  | nil =>
    rw [show regKeys (regSet [] k v) = [k] from rfl] at h
    exact Or.inl (List.mem_singleton.mp h)
  | cons p rest ih =>
    obtain ⟨k2, v2⟩ := p
    by_cases h2 : k2 = k
    · rw [show regSet ((k2, v2) :: rest) k v = (k, v) :: rest from by simp [regSet, h2],
        regKeys_cons] at h
      rcases List.mem_cons.mp h with h | h
      · exact Or.inl h
      · exact Or.inr (by rw [regKeys_cons]; exact List.mem_cons_of_mem k2 h)
    · rw [show regSet ((k2, v2) :: rest) k v = (k2, v2) :: regSet rest k v from by
          simp [regSet, h2], regKeys_cons] at h
      rcases List.mem_cons.mp h with h | h
      · exact Or.inr (by rw [regKeys_cons]; exact h ▸ List.mem_cons_self k2 (regKeys rest))
      · rcases ih h with h | h
        · exact Or.inl h
        · exact Or.inr (by rw [regKeys_cons]; exact List.mem_cons_of_mem k2 h)

theorem regKeys_nodup_regSet (reg : Registry) (k : PStr) (v : CommandSpec)
    (h : (regKeys reg).Nodup) : (regKeys (regSet reg k v)).Nodup := by
  induction reg with
  | nil => simp [regSet, regKeys]
  | cons p rest ih =>
    obtain ⟨k2, v2⟩ := p
    rw [regKeys_cons, List.nodup_cons] at h
    by_cases h2 : k2 = k
    · rw [show regSet ((k2, v2) :: rest) k v = (k, v) :: rest from by simp [regSet, h2],
        regKeys_cons, List.nodup_cons]
      exact ⟨h2 ▸ h.1, h.2⟩
    · rw [show regSet ((k2, v2) :: rest) k v = (k2, v2) :: regSet rest k v from by
          simp [regSet, h2], regKeys_cons, List.nodup_cons]
      refine ⟨?_, ih h.2⟩
      intro hc
      rcases mem_regKeys_regSet rest k k2 v hc with hc | hc
      · exact h2 hc
      · exact h.1 hc

theorem regKeys_nodup_regSetAll (ks : List PStr) (reg : Registry)
    (spec : CommandSpec) (h : (regKeys reg).Nodup) :
    (regKeys (regSetAll reg ks spec)).Nodup := by
  induction ks generalizing reg with
  | nil => simpa [regSetAll] using h
  | cons k0 ks ih =>
    have step : regSetAll reg (k0 :: ks) spec = regSetAll (regSet reg k0 spec) ks spec := rfl
    rw [step]
    exact ih (regSet reg k0 spec) (regKeys_nodup_regSet reg k0 spec h)

theorem compileArgLines_ok_mem (ls : List PStr) (rules : List ArgRule)
    (hok : compileArgLines ls = .ok rules) (L : PStr) (hmem : L ∈ ls) :
    ∃ r, compileStep L = .ok r ∧ r ∈ rules := by
  induction ls generalizing rules with
  | nil => exact absurd hmem (List.not_mem_nil L)
  | cons x xs ih =>
    unfold compileArgLines at hok
    cases hx : compileStep x with
    | error e => rw [hx] at hok; exact absurd hok (by simp)
    | ok r =>
      rw [hx] at hok
      cases hxs : compileArgLines xs with
      | error e => rw [hxs] at hok; exact absurd hok (by simp)
      | ok rs =>
        rw [hxs] at hok
        have hrules : rules = r :: rs := by
          have := hok
          simp at this
          exact this.symm
        subst hrules
        rcases List.mem_cons.mp hmem with h | h
        · subst h
          exact ⟨r, hx, List.mem_cons_self r rs⟩
        · obtain ⟨r2, hr2, hr2m⟩ := ih rs hxs h
          exact ⟨r2, hr2, List.mem_cons_of_mem r hr2m⟩

theorem matchPos_nil_ok (pos : List PStr) (ns ns2 : ArgNs)
    (h : matchPos [] pos ns = .ok ns2) : ns2 = ns ∧ pos = [] := by
  cases pos with
  | nil =>
    simp [matchPos] at h
    exact ⟨h.symm, rfl⟩
  | cons t ts => exact absurd h (by simp [matchPos])

theorem addSubcommand_front_error (reg : Registry) (h : Handler) (e : PStr)
    (hd : docFront h.doc = .error e) : addSubcommand reg h = .error e := by
  unfold addSubcommand
  rw [hd]

theorem addSubcommand_front_ok (reg : Registry) (h : Handler) (f : DocFront)
    (hd : docFront h.doc = .ok f) :
    addSubcommand reg h =
      (match checkKeys reg (f.name :: f.aliases) with
       | .error e => .error e
       | .ok _ =>
         match compileArgBlock f.argsBlocks with
         | .error e => .error e
         | .ok rules => .ok (regSetAll reg (f.name :: f.aliases) (mkSpec h f rules))) := by
  unfold addSubcommand
  rw [hd]

theorem addSubcommand_ok_shape (reg : Registry) (h : Handler) (reg2 : Registry)
    (hok : addSubcommand reg h = .ok reg2) :
    ∃ f rules, docFront h.doc = .ok f ∧ compileArgBlock f.argsBlocks = .ok rules ∧
      reg2 = regSetAll reg (f.name :: f.aliases) (mkSpec h f rules) := by
  cases hd : docFront h.doc with
  | error e =>
    rw [addSubcommand_front_error reg h e hd] at hok
    exact Except.noConfusion hok
  | ok f =>
    rw [addSubcommand_front_ok reg h f hd] at hok
    cases hc : checkKeys reg (f.name :: f.aliases) with
    | error e =>
      rw [hc] at hok
      exact Except.noConfusion hok
    | ok u =>
      rw [hc] at hok
      cases hb : compileArgBlock f.argsBlocks with
      | error e =>
        rw [hb] at hok
        exact Except.noConfusion hok
      | ok rules =>
        rw [hb] at hok
        injection hok with hok
        exact ⟨f, rules, rfl, hb, hok.symm⟩

theorem registerAll_nodup (hs : List Handler) (reg0 reg : Registry)
    (h0 : (regKeys reg0).Nodup) (h : registerAll reg0 hs = .ok reg) :
    (regKeys reg).Nodup := by
  induction hs generalizing reg0 with
  | nil =>
    unfold registerAll at h
    injection h with h
    subst h
    exact h0
  | cons hh hs ih =>
    unfold registerAll at h
    cases ha : addSubcommand reg0 hh with
    | error e =>
      rw [ha] at h
      exact Except.noConfusion h
    | ok reg1 =>
      rw [ha] at h
      obtain ⟨f, rules, _, _, hshape⟩ := addSubcommand_ok_shape reg0 hh reg1 ha
      refine ih reg1 ?_ h
      rw [hshape]
      exact regKeys_nodup_regSetAll (f.name :: f.aliases) reg0 (mkSpec hh f rules) h0

/-! The claims follow, one theorem each. -/

/-- Claim C1, counterexample: compiling the Args line
`files...: One or more files.` and invoking with the trailing tokens
`a b c` does not bind the argument to the flat sequence of the three
tokens; the append action nests the collected list, so the bound value is
the singleton list holding that sequence. -/
theorem c1_nested_not_flat :
    parseCmdArgs [filesRule] ["a".toList, "b".toList, "c".toList] =
      .ok [("files".toList,
        PyVal.list [PyVal.list [.str "a".toList, .str "b".toList, .str "c".toList]])] ∧
    PyVal.list [PyVal.list [.str "a".toList, .str "b".toList, .str "c".toList]] ≠
      PyVal.list [.str "a".toList, .str "b".toList, .str "c".toList] := by
  constructor
  · rfl
  · intro h
    simp at h

/-- Claim C1, amended: an Args line `files...: One or more files.` compiles
to a repeated (append, nargs plus) required positional rule of the default
string type; compiling any Args block containing the line yields that rule;
invoking with zero trailing tokens is a usage error for the missing
required positional; and invoking with `a b c` binds the argument to the
singleton sequence containing the ordered sequence of the three tokens. -/
theorem c1_repeated_positional_amended :
    compileStep filesLine = .ok filesRule ∧
    (∀ ls rules, filesLine ∈ ls → compileArgLines ls = .ok rules → filesRule ∈ rules) ∧
    parseCmdArgs [filesRule] [] =
      .error ("the following arguments are required: ".toList ++ "files".toList) ∧
    parseCmdArgs [filesRule] ["a".toList, "b".toList, "c".toList] =
      .ok [("files".toList,
        PyVal.list [PyVal.list [.str "a".toList, .str "b".toList, .str "c".toList]])] := by
  refine ⟨rfl, ?_, rfl, rfl⟩
  intro ls rules hm hok
  obtain ⟨r, hr, hmem⟩ := compileArgLines_ok_mem ls rules hok filesLine hm
  have hstep : compileStep filesLine = .ok filesRule := rfl
  rw [hstep] at hr
  injection hr with h
  subst h
  exact hmem

theorem c1_repeated_positional_witness : filesRule ∈ [filesRule] :=
  c1_repeated_positional_amended.2.1 [filesLine] [filesRule]
    (List.mem_singleton.mpr rfl) rfl

/-- Claim C2: the Args line `-c|--comment=string: text` is classified as a
store flag, but the source passes the string literal `"str"` (not the
builtin callable) as the argparse type keyword, so add_argument rejects the
rule with a ValueError at registration time and no Args block containing
the line ever compiles; the spec-described Single String Flag that parses
`--comment=hello` never comes into existence. -/
theorem c2_string_flag_rejected :
    compileArgLine commentLine =
      .ok { names := ["-c".toList, "--comment".toList], action := .store,
            typeArg := some (.strLit ("str".toList)), dflt := Option.none,
            nargsPlus := false, help := "text".toList } ∧
    compileStep commentLine = .error ("str".toList ++ " is not callable".toList) ∧
    (∀ ls rules, commentLine ∈ ls → compileArgLines ls ≠ .ok rules) := by
  refine ⟨rfl, rfl, ?_⟩
  intro ls rules hm hok
  obtain ⟨r, hr, _⟩ := compileArgLines_ok_mem ls rules hok commentLine hm
  have hstep : compileStep commentLine = .error ("str".toList ++ " is not callable".toList) := rfl
  rw [hstep] at hr
  exact Except.noConfusion hr

theorem c2_string_flag_witness : compileArgLines [commentLine] ≠ .ok [] :=
  c2_string_flag_rejected.2.2 [commentLine] [] (List.mem_singleton.mpr rfl)

/-- Claim C3: invoking the program with zero command-line tokens does not
print the top-level help; the top-level parse leaves the namespace without
a `func` attribute, so `if not args.func` in `main` raises AttributeError
before `cli.print_help()` is reached. -/
theorem c3_no_command_internal_error :
    mainModel geetRegistry [] = .internalError attrErrMsg ∧
    mainModel geetRegistry [] ≠ .helpPrinted ∧
    mainModel [] [] = .internalError attrErrMsg := by
  refine ⟨rfl, ?_, rfl⟩
  intro h
  rw [show mainModel geetRegistry [] = .internalError attrErrMsg from rfl] at h
  exact MainOutcome.noConfusion h

/-- Claim C4: registering a command one of whose declared keys (canonical
name or alias) is already bound in the registry fails with a registration
error before any dispatch can take place, and every registry successfully
built by registration has pairwise distinct keys. -/
theorem c4_duplicate_registration :
    (∀ reg1 h2 k, (regFind reg1 k).isSome → k ∈ docKeys h2 →
      ∃ e, addSubcommand reg1 h2 = .error e) ∧
    (∀ hs reg, registerAll [] hs = .ok reg → (regKeys reg).Nodup) := by
  constructor
  · intro reg1 h2 k hfound hk
    cases hd : docFront h2.doc with
    | error e => exact ⟨e, addSubcommand_front_error reg1 h2 e hd⟩
    | ok f =>
      have hdk : docKeys h2 = f.name :: f.aliases := by
        unfold docKeys
        rw [hd]
      rw [hdk] at hk
      obtain ⟨e, he⟩ := checkKeys_error_of_mem (f.name :: f.aliases) reg1 k hk hfound
      refine ⟨e, ?_⟩
      rw [addSubcommand_front_ok reg1 h2 f hd, he]
  · intro hs reg h
    exact registerAll_nodup hs [] reg (by simp [regKeys]) h

set_option maxRecDepth 100000 in
theorem c4_duplicate_registration_witness :
    (∃ e, addSubcommand oneRegistry twoHandler = .error e) ∧
    (regKeys geetRegistry).Nodup :=
  ⟨c4_duplicate_registration.1 oneRegistry twoHandler ("x".toList) (by rfl) (by decide),
   c4_duplicate_registration.2 [testingHandler, foobarHandler] geetRegistry rfl⟩

/-- Claim C5: a handler is called only when the command token resolved to a
registered command and the remaining tokens validated against its rules;
an unresolved command token yields a usage error naming the token, and a
validation failure yields a usage error, in both cases without any handler
invocation. -/
theorem c5_no_handler_on_failure :
    (∀ reg ts hf ns, mainModel reg ts = .handlerCalled hf ns →
      ∃ t ts2 spec, ts = t :: ts2 ∧ isOptionLike t = false ∧
        regFind reg t = some spec ∧ spec.handler = hf ∧
        parseCmdArgs spec.rules ts2 = .ok ns) ∧
    (∀ reg t ts, isOptionLike t = false → regFind reg t = Option.none →
      mainModel reg (t :: ts) = .usageError ("invalid choice: ".toList ++ t)) ∧
    (∀ reg t ts spec e, isOptionLike t = false → regFind reg t = some spec →
      parseCmdArgs spec.rules ts = .error e →
      mainModel reg (t :: ts) = .usageError e) := by
  refine ⟨?_, ?_, ?_⟩
  · intro reg ts hf ns hcall
    cases ts with
    | nil => exact MainOutcome.noConfusion hcall
    | cons t ts2 =>
      simp only [mainModel] at hcall
      by_cases ho : isOptionLike t
      · rw [if_pos ho] at hcall
        exact MainOutcome.noConfusion hcall
      · rw [if_neg ho] at hcall
        cases hfind : regFind reg t with
        | none =>
          rw [hfind] at hcall
          exact MainOutcome.noConfusion hcall
        | some spec =>
          rw [hfind] at hcall
          dsimp only at hcall
          cases hp : parseCmdArgs spec.rules ts2 with
          | error e =>
            rw [hp] at hcall
            exact MainOutcome.noConfusion hcall
          | ok ns2 =>
            rw [hp] at hcall
            injection hcall with h1 h2
            exact ⟨t, ts2, spec, rfl, Bool.of_not_eq_true ho, hfind, h1, h2 ▸ hp⟩
  · intro reg t ts ho hfind
    simp only [mainModel]
    rw [if_neg (by simp [ho]), hfind]
  · intro reg t ts spec e ho hfind hp
    simp only [mainModel]
    rw [if_neg (by simp [ho]), hfind]
    dsimp only
    rw [hp]

set_option maxRecDepth 100000 in
theorem c5_no_handler_witness :
    mainModel geetRegistry ["bogus".toList] =
      .usageError ("invalid choice: ".toList ++ "bogus".toList) :=
  c5_no_handler_on_failure.2.1 geetRegistry ("bogus".toList) [] (by rfl) (by rfl)

/-- Claim C6: after a successful registration, every key the docstring
declares — the canonical name and each alias of the Aliases paragraph —
resolves in the resulting registry to the identical compiled command. -/
theorem c6_alias_resolution :
    ∀ reg h reg2, addSubcommand reg h = .ok reg2 →
      ∃ spec, ∀ k, k ∈ docKeys h → regFind reg2 k = some spec := by
  intro reg h reg2 hok
  obtain ⟨f, rules, hd, _, hshape⟩ := addSubcommand_ok_shape reg h reg2 hok
  have hdk : docKeys h = f.name :: f.aliases := by
    unfold docKeys
    rw [hd]
  refine ⟨mkSpec h f rules, ?_⟩
  intro k hk
  rw [hdk] at hk
  rw [hshape]
  exact regFind_regSetAll_of_mem _ _ _ _ (Or.inl hk)

theorem c6_alias_resolution_witness :
    docKeys zapHandler = ["zap".toList, "a".toList, "b".toList, "c".toList] ∧
    (∃ spec, ∀ k, k ∈ docKeys zapHandler → regFind zapRegistry k = some spec) :=
  ⟨rfl, c6_alias_resolution [] zapHandler zapRegistry rfl⟩

/-- Claim C9: the inner function of the subcommand decorator returns None,
so the decorated module-level name is rebound to None after registration,
while the handler reference survives inside the registered command through
the parser defaults. -/
theorem c9_decorator_returns_none :
    (∀ reg h, (subcommandDecorate reg h).2 = Option.none) ∧
    (∀ reg h reg2, (subcommandDecorate reg h).1 = .ok reg2 →
      ∀ k, k ∈ docKeys h →
        ∃ spec, regFind reg2 k = some spec ∧ spec.handler = h.name) := by
  constructor
  · intro reg h
    rfl
  · intro reg h reg2 hok k hk
    obtain ⟨f, rules, hd, _, hshape⟩ := addSubcommand_ok_shape reg h reg2 hok
    have hdk : docKeys h = f.name :: f.aliases := by
      unfold docKeys
      rw [hd]
    rw [hdk] at hk
    refine ⟨mkSpec h f rules, ?_, rfl⟩
    rw [hshape]
    exact regFind_regSetAll_of_mem _ _ _ _ (Or.inl hk)

set_option maxRecDepth 100000 in
theorem c9_decorator_witness :
    (subcommandDecorate [] testingHandler).2 = Option.none ∧
    (∃ spec, regFind testingOnlyRegistry ("testing".toList) = some spec ∧
      spec.handler = "testing".toList) :=
  ⟨rfl, c9_decorator_returns_none.2 [] testingHandler testingOnlyRegistry rfl
    ("testing".toList) (by decide)⟩

/-- Claim C8, counterexample: an argument line whose help text itself
contains the separator `": "`, such as `x: a: b`, does not compile: the
source splits the line at every occurrence and the two-variable unpack then
fails with a ValueError, although the claim predicts a successful split at
the first separator only. -/
theorem c8_double_separator_error :
    pySplit ("x: a: b".toList) (": ".toList) = ["x".toList, "a".toList, "b".toList] ∧
    compileArgLine ("x: a: b".toList) =
      .error ("ValueError: cannot unpack arg line: ".toList ++ "x: a: b".toList) :=
  ⟨rfl, rfl⟩

/-- Claim C8, amended: every non-blank Args line must contain exactly one
occurrence of `": "`; a line whose split on `": "` does not yield exactly
two pieces — no separator at all, or a second separator inside the help
text — is a fatal configuration error at registration time. -/
theorem c8_line_split_amended :
    (∀ x : PStr, (pySplit x (": ".toList)).length ≠ 2 →
      compileArgLine x = .error ("ValueError: cannot unpack arg line: ".toList ++ x)) ∧
    compileArgLine ("x: help".toList) =
      .ok { names := ["x".toList], action := .store, typeArg := some .callableStr,
            dflt := Option.none, nargsPlus := false, help := "help".toList } := by
  refine ⟨?_, rfl⟩
  intro x h
  unfold compileArgLine
  rcases hs : pySplit x (": ".toList) with _ | ⟨a, _ | ⟨b, _ | ⟨c, rest⟩⟩⟩
  · rfl
  · rfl
  · rw [hs] at h
    simp at h
  · rfl

theorem c8_line_split_witness :
    compileArgLine ("nocolonhere".toList) =
      .error ("ValueError: cannot unpack arg line: ".toList ++ "nocolonhere".toList) :=
  c8_line_split_amended.1 ("nocolonhere".toList) (by decide)

theorem findFlagRule_killRule (x : PStr) (r : ArgRule)
    (h : findFlagRule [killRule] x = some r) : r = killRule := by
  have hmem := List.mem_of_find?_eq_some h
  simpa using hmem

theorem killRule_step (t : PStr) (ts : List PStr) (ns : ArgNs) (pos : List PStr)
    (out : ArgNs × List PStr)
    (h : parseOpts [killRule] (t :: ts) ns pos = .ok out) :
    (isOptionLike t = false ∧ parseOpts [killRule] ts ns (t :: pos) = .ok out) ∨
    (isOptionLike t = true ∧
      parseOpts [killRule] ts (nsSet ns ("kill".toList) (.bool true)) pos = .ok out) := by
  simp only [parseOpts] at h
  by_cases ho : isOptionLike t
  · rw [if_pos ho] at h
    refine Or.inr ⟨ho, ?_⟩
    cases hsp : (if pyStartsWith t ("--".toList) then splitFirstEq t else Option.none) with
    | some ov =>
      rw [hsp] at h
      dsimp only at h
      cases hfr : findFlagRule [killRule] ov.1 with
      | none =>
        rw [hfr] at h
        exact Except.noConfusion h
      | some r =>
        rw [hfr] at h
        have hr := findFlagRule_killRule ov.1 r hfr
        subst hr
        dsimp only [killRule] at h
        exact Except.noConfusion h
    | none =>
      rw [hsp] at h
      dsimp only at h
      cases hfr : findFlagRule [killRule] t with
      | none =>
        rw [hfr] at h
        exact Except.noConfusion h
      | some r =>
        rw [hfr] at h
        have hr := findFlagRule_killRule t r hfr
        subst hr
        exact h
  · rw [if_neg ho] at h
    exact Or.inl ⟨Bool.of_not_eq_true ho, h⟩

theorem killRule_keeps (ts : List PStr) (ns : ArgNs) (pos : List PStr)
    (out : ArgNs × List PStr)
    (h : parseOpts [killRule] ts ns pos = .ok out)
    (htrue : nsFind ns ("kill".toList) = some (.bool true)) :
    nsFind out.1 ("kill".toList) = some (.bool true) := by
  induction ts generalizing ns pos with
  | nil =>
    simp only [parseOpts] at h
    injection h with h
    rw [← h]
    exact htrue
  | cons t ts ih =>
    rcases killRule_step t ts ns pos out h with ⟨_, h2⟩ | ⟨_, h2⟩
    · exact ih ns (t :: pos) h2 htrue
    · exact ih _ pos h2 (nsFind_nsSet_self ns _ _)

theorem killRule_sets (ts : List PStr) (ns : ArgNs) (pos : List PStr)
    (out : ArgNs × List PStr)
    (h : parseOpts [killRule] ts ns pos = .ok out)
    (hmem : "-k".toList ∈ ts ∨ "--kill".toList ∈ ts) :
    nsFind out.1 ("kill".toList) = some (.bool true) := by
  induction ts generalizing ns pos with
  | nil =>
    rcases hmem with hm | hm
    · exact absurd hm (List.not_mem_nil _)
    · exact absurd hm (List.not_mem_nil _)
  | cons t ts ih =>
    rcases killRule_step t ts ns pos out h with ⟨ho, h2⟩ | ⟨_, h2⟩
    · have hmem2 : "-k".toList ∈ ts ∨ "--kill".toList ∈ ts := by
        rcases hmem with hm | hm
        · rcases List.mem_cons.mp hm with hm | hm
          · rw [← hm] at ho
            exact absurd ho (by decide)
          · exact Or.inl hm
        · rcases List.mem_cons.mp hm with hm | hm
          · rw [← hm] at ho
            exact absurd ho (by decide)
          · exact Or.inr hm
      exact ih ns (t :: pos) h2 hmem2
    · exact killRule_keeps ts _ pos out h2 (nsFind_nsSet_self ns _ _)

/-- Claim C7: the Args line `-k|--kill: kill` compiles to a boolean
store_true rule reachable by either `-k` or `--kill`; compiling any Args
block containing the line yields that rule; the bound value defaults to
false, is true whenever either flag form is present on a successfully
parsed command line, and a lone flag token suffices — no separate value
token is consumed. -/
theorem c7_bool_flag :
    compileStep killLine = .ok killRule ∧
    (∀ ls rules, killLine ∈ ls → compileArgLines ls = .ok rules → killRule ∈ rules) ∧
    parseCmdArgs [killRule] [] = .ok [("kill".toList, .bool false)] ∧
    parseCmdArgs [killRule] ["-k".toList] = .ok [("kill".toList, .bool true)] ∧
    parseCmdArgs [killRule] ["--kill".toList] = .ok [("kill".toList, .bool true)] ∧
    (∀ ts ns, parseCmdArgs [killRule] ts = .ok ns →
      ("-k".toList ∈ ts ∨ "--kill".toList ∈ ts) →
      nsFind ns ("kill".toList) = some (.bool true)) := by
  refine ⟨rfl, ?_, rfl, rfl, rfl, ?_⟩
  · intro ls rules hm hok
    obtain ⟨r, hr, hmem⟩ := compileArgLines_ok_mem ls rules hok killLine hm
    have hstep : compileStep killLine = .ok killRule := rfl
    rw [hstep] at hr
    injection hr with h
    subst h
    exact hmem
  · intro ts ns h hmem
    unfold parseCmdArgs at h
    cases hpo : parseOpts [killRule] ts (initNs [killRule]) [] with
    | error e =>
      rw [hpo] at h
      exact Except.noConfusion h
    | ok nsp =>
      rw [hpo] at h
      dsimp only at h
      rw [show ([killRule].filter (fun r => !r.isFlag)) = [] from rfl] at h
      obtain ⟨hns, _⟩ := matchPos_nil_ok nsp.2 nsp.1 ns h
      rw [hns]
      exact killRule_sets ts (initNs [killRule]) [] nsp hpo hmem

theorem c7_bool_flag_witness :
    nsFind [("kill".toList, PyVal.bool true)] ("kill".toList) = some (.bool true) :=
  c7_bool_flag.2.2.2.2.2 ["-k".toList] [("kill".toList, PyVal.bool true)] rfl
    (Or.inl (List.mem_singleton.mpr rfl))

/-- Claim C10, counterexample: a paragraph in which two spaces separate the
colon from the first alias is still recovered intact, because each comma
piece is stripped of surrounding whitespace; recovery therefore does not
hold exactly when one single character separates the colon from the first
alias. -/
theorem c10_two_space_intact :
    "Aliases:  a, b, c".toList = "Aliases:".toList ++ [' ', ' '] ++ "a, b, c".toList ∧
    parseAliasPara ("Aliases:".toList ++ [' ', ' '] ++ "a, b, c".toList) =
      ["a".toList, "b".toList, "c".toList] :=
  ⟨rfl, rfl⟩

/-- Claim C10, amended: the alias list is computed from character offset 9
of the paragraph although the header `Aliases:` has 8 characters, so
exactly one character after the header is unconditionally discarded; the
alias list is recovered intact whenever the discarded character is not part
of an alias — in particular with one single space after the colon, but also
with several, since every comma piece is stripped — while a paragraph
written `Aliases:a, b` (no space) loses the first character of its first
alias, here yielding the empty first alias. -/
theorem c10_alias_offset_amended :
    ("Aliases:".toList).length = 8 ∧
    (∀ s : PStr, parseAliasPara ("Aliases:".toList ++ ' ' :: s) =
      (pySplit s [',']).map pyStrip) ∧
    parseAliasPara ("Aliases: a, b, c".toList) = ["a".toList, "b".toList, "c".toList] ∧
    parseAliasPara ("Aliases:  a, b, c".toList) = ["a".toList, "b".toList, "c".toList] ∧
    parseAliasPara ("Aliases:a, b".toList) = [[], "b".toList] :=
  ⟨rfl, fun _ => rfl, rfl, rfl, rfl⟩

end Geet
